import Mathlib

/-!
Verification development for the livecoding signaling system.

The server side (`Hub` namespace) embeds `src/backend/main.go`: the room/client
registry, the per-connection message loop, routing of offer/answer/candidate
envelopes, membership broadcasting and disconnect cleanup.

The client side (`RTC` namespace) embeds
`src/front-live-coding-editor/components/WebRTCManager.tsx`: the peer-link
registry, idempotent peer creation, the membership diff on `clients` snapshots,
the data-channel open handler and the broadcast send loop.

Go maps and JS objects keyed by strings are embedded as association lists with
the exact update semantics of the source (assignment replaces the entry for the
key; `delete` removes it). Connection and peer handles are `Nat`.
-/

namespace AssocMap

variable {κ α : Type} [DecidableEq κ]

/-- Lookup in an association list: the Go map read `m[k]` / JS `obj[k]`. -/
def find? (k : κ) : List (κ × α) → Option α
  | [] => none
  | p :: rest => if p.1 = k then some p.2 else find? k rest

/-- Map assignment `m[k] = v`: replaces any entry for `k`. -/
def set (k : κ) (v : α) (l : List (κ × α)) : List (κ × α) :=
  (k, v) :: l.filter (fun p => p.1 ≠ k)

/-- Map deletion `delete(m, k)`. -/
def del (k : κ) (l : List (κ × α)) : List (κ × α) :=
  l.filter (fun p => p.1 ≠ k)

/-- The keys of the map. -/
def keys (l : List (κ × α)) : List κ :=
  l.map Prod.fst

end AssocMap

namespace Hub

/-- The wire envelope of `src/backend/main.go` (`type Message struct`).
The three raw-JSON payload fields (offer/answer/candidate) are collapsed into
one opaque `payload` string; the Hub never inspects them. -/
structure Message where
  type : String := ""
  clientId : String := ""
  senderId : String := ""
  roomId : String := ""
  clients : List String := []
  payload : String := ""
deriving DecidableEq, Repr

/-- A registry record (`type Client struct`). -/
structure Client where
  Id : String
  RoomId : String
  Conn : Nat
deriving DecidableEq, Repr

/-- The global `clients` map of the Go server. -/
abbrev Registry := List (String × Client)

/-- Well-formed registries: distinct keys (a Go map cannot repeat a key) and
each record stored under its own id (`clients[clientId] = NewClient(clientId, ...)`). -/
def WF (reg : Registry) : Prop :=
  (AssocMap.keys reg).Nodup ∧ ∀ p ∈ reg, p.2.Id = p.1

/-- Go helper `contains(arr, str)`. -/
def strContains : List String → String → Bool
  | [], _ => false
  | v :: rest, str => if v = str then true else strContains rest str

/-- The id list built by `sendClientList` / `broadcastClientsInRoom`:
all registered ids whose record is in `roomId`. -/
def clientsInRoom (reg : Registry) (roomId : String) : List String :=
  (reg.filter (fun p => p.2.RoomId = roomId)).map Prod.fst

/-- `broadcastClientsInRoom(roomId, excludeClients)`: sends the current room
membership to every registered client of the room not in the exclusion list.
A delivery is (connection handle, message). -/
def broadcastClientsInRoom (reg : Registry) (roomId : String)
    (excludeClients : List String) : List (Nat × Message) :=
  let message : Message := { type := "clients", clients := clientsInRoom reg roomId }
  reg.filterMap (fun p =>
    if strContains excludeClients p.2.Id ∨ p.2.RoomId ≠ roomId then none
    else some (p.2.Conn, message))

/-- `handleRoomOperation(conn, clientId, roomId)`: registers (or replaces) the
record and broadcasts the new membership, excluding the joining client. -/
def handleRoomOperation (conn : Nat) (clientId roomId : String) (reg : Registry) :
    Registry × List (Nat × Message) :=
  let reg' := AssocMap.set clientId ⟨clientId, roomId, conn⟩ reg
  (reg', broadcastClientsInRoom reg' roomId [clientId])

/-- `forwardMessage(senderID, msg)`: looks up the target by `msg.ClientId`,
stamps `SenderId`, and delivers to the target's connection if registered. -/
def forwardMessage (senderID : String) (msg : Message) (reg : Registry) :
    List (Nat × Message) :=
  match AssocMap.find? msg.clientId reg with
  | some targetClient => [(targetClient.Conn, { msg with senderId := senderID })]
  | none => []

/-- `getClientId(conn)`: the first registered id whose record holds this
connection, or `""` when none does. -/
def getClientId (reg : Registry) (conn : Nat) : String :=
  match reg.find? (fun p => p.2.Conn = conn) with
  | some p => p.1
  | none => ""

/-- `handleClientDisconnection(conn)`. The Go code reads `clients[clientId]`
and immediately dereferences it (`client.RoomId`); when no record exists the
pointer is nil and the dereference panics — that case is `none`. -/
def handleClientDisconnection (reg : Registry) (conn : Nat) :
    Option (Registry × List (Nat × Message)) :=
  let clientId := getClientId reg conn
  match AssocMap.find? clientId reg with
  | none => none
  | some client =>
    let reg' := AssocMap.del clientId reg
    some (reg', broadcastClientsInRoom reg' client.RoomId [])

/-- The per-connection state of the read loop in `handleConnections`:
`var senderID string` starts as the empty string. -/
structure ConnState where
  senderID : String
deriving DecidableEq, Repr

/-- Initial per-connection state. -/
def ConnState.init : ConnState := ⟨""⟩

/-- One iteration of the read loop of `handleConnections`: updates `senderID`
on createRoom/joinRoom, then dispatches on the message type. Returns the new
connection state, the new registry, and the deliveries performed. -/
def handleMessage (cs : ConnState) (conn : Nat) (reg : Registry) (msg : Message) :
    ConnState × Registry × List (Nat × Message) :=
  let cs' := if msg.type = "createRoom" ∨ msg.type = "joinRoom"
    then { senderID := msg.clientId } else cs
  if msg.type = "createRoom" ∨ msg.type = "joinRoom" then
    let (reg', ds) := handleRoomOperation conn msg.clientId msg.roomId reg
    (cs', reg', ds)
  else if msg.type = "getClients" then
    (cs', reg, [(conn, { type := "clients", clients := clientsInRoom reg msg.roomId })])
  else if msg.type = "offer" ∨ msg.type = "answer" ∨ msg.type = "candidate" then
    (cs', reg, forwardMessage cs'.senderID msg reg)
  else
    (cs', reg, [])

/-- A hub-level event: a room registration message on a connection, or a
transport-level disconnect of a connection. -/
inductive Event where
  | join (conn : Nat) (clientId : String) (roomId : String)
  | disconnect (conn : Nat)
deriving DecidableEq, Repr

/-- The hub together with the last `clients` snapshot each connection has
received (delivery of in-flight messages is immediate, i.e. quiescence after
every step). -/
structure World where
  reg : Registry
  lastSnap : List (Nat × List String)
deriving DecidableEq, Repr

/-- Record a batch of deliveries: each `clients` message replaces the
recipient connection's last snapshot. -/
def applyDeliveries (ds : List (Nat × Message)) (snap : List (Nat × List String)) :
    List (Nat × List String) :=
  ds.foldl (fun s d => if d.2.type = "clients"
    then AssocMap.set d.1 d.2.clients s else s) snap

/-- One hub step. A disconnect of a connection with no registered record hits
the nil-dereference in `handleClientDisconnection` and is `none`. -/
def step (w : World) (e : Event) : Option World :=
  match e with
  | .join conn clientId roomId =>
    let (reg', ds) := handleRoomOperation conn clientId roomId w.reg
    some ⟨reg', applyDeliveries ds w.lastSnap⟩
  | .disconnect conn =>
    match handleClientDisconnection w.reg conn with
    | some (reg', ds) => some ⟨reg', applyDeliveries ds w.lastSnap⟩
    | none => none

/-- Run the hub from a world over a sequence of events. -/
def runFrom (w : World) : List Event → Option World
  | [] => some w
  | e :: rest =>
    match step w e with
    | some w' => runFrom w' rest
    | none => none

/-- Run the hub from the initial (empty) world. -/
def run (events : List Event) : Option World :=
  runFrom ⟨[], []⟩ events

/-- The event is a join registering the given client id. -/
def Event.isJoinOf (e : Event) (clientId : String) : Prop :=
  match e with
  | .join _ c _ => c = clientId
  | .disconnect _ => False

/-- The event stays inside room `r` (disconnects carry no room). -/
def Event.inRoom (e : Event) (r : String) : Prop :=
  match e with
  | .join _ _ rid => rid = r
  | .disconnect _ => True

end Hub

namespace RTC

/-- An `RTCDataChannel` as the Coordinator observes it: its label, its
`readyState`, and whether a `send` on it currently throws (the environment's
choice, fixed per channel in a given state). -/
structure Channel where
  label : String
  readyState : String
  sendFails : Bool
deriving DecidableEq, Repr

/-- One entry of the `peers` map of `WebRTCManager.tsx` (`interface
PeerConnection`): the `RTCPeerConnection` handle and the optional data
channel. -/
structure Peer where
  peerConnection : Nat
  dataChannel : Option Channel
deriving DecidableEq, Repr

/-- A websocket message sent towards the Hub by the manager. -/
structure WsOut where
  type : String
  clientId : String
deriving DecidableEq, Repr

/-- The manager's state: the `peers` map, a fresh-handle counter for newly
constructed `RTCPeerConnection`s, and the messages sent on the signaling
socket so far. -/
structure MgrState where
  peers : List (String × Peer)
  nextHandle : Nat
  wsSent : List WsOut
deriving DecidableEq, Repr

/-- `createPeerConnection(remoteClientId, isInitiator)`: returns the existing
peer connection unchanged when a record exists; otherwise constructs a new
`RTCPeerConnection`, an initiator additionally creates the `textSync` data
channel and sends one offer addressed to the remote id. -/
def createPeerConnection (remoteClientId : String) (isInitiator : Bool)
    (st : MgrState) : Nat × MgrState :=
  match AssocMap.find? remoteClientId st.peers with
  | some p => (p.peerConnection, st)
  | none =>
    let pc := st.nextHandle
    let dataChannel : Option Channel :=
      if isInitiator then some ⟨"textSync", "connecting", false⟩ else none
    let sent := if isInitiator then [WsOut.mk "offer" remoteClientId] else []
    (pc, { peers := AssocMap.set remoteClientId ⟨pc, dataChannel⟩ st.peers,
           nextHandle := pc + 1,
           wsSent := st.wsSent ++ sent })

/-- `cleanupPeerConnection(peerId)`: when a record exists, closes its handles
and deletes the record; otherwise does nothing. -/
def cleanupPeerConnection (peerId : String) (st : MgrState) : MgrState :=
  match AssocMap.find? peerId st.peers with
  | some _ => { st with peers := AssocMap.del peerId st.peers }
  | none => st

/-- The creation pass of the `clients` case of `ws.onmessage`: for each id in
the snapshot that is neither this client nor an already-known peer, create an
initiator link. Returns the state and the (remoteId, isInitiator) creations
performed. -/
def createNewPeers (clientId : String) : List String → MgrState →
    MgrState × List (String × Bool)
  | [], st => (st, [])
  | remoteClientId :: rest, st =>
    if remoteClientId ≠ clientId ∧ (AssocMap.find? remoteClientId st.peers) = none then
      let (_, st') := createPeerConnection remoteClientId true st
      let (stf, cs) := createNewPeers clientId rest st'
      (stf, (remoteClientId, true) :: cs)
    else
      createNewPeers clientId rest st

/-- The `clients` case of `ws.onmessage`: computes the departed peers
(current peers absent from the snapshot, own id excepted), cleans each up,
then creates initiator links to the new ids. Returns the final state, the
cleaned ids and the creations. -/
def handleClientsMessage (clientId : String) (snapshot : List String)
    (st : MgrState) : MgrState × List String × List (String × Bool) :=
  let currentPeerIds := AssocMap.keys st.peers
  let disconnectedPeers := currentPeerIds.filter
    (fun peerId => ¬ peerId ∈ snapshot ∧ peerId ≠ clientId)
  let st1 := disconnectedPeers.foldl (fun s peerId => cleanupPeerConnection peerId s) st
  let (st2, created) := createNewPeers clientId snapshot st1
  (st2, disconnectedPeers, created)

/-- The `onopen` handler installed by `setupDataChannel`: when the channel's
label is `textSync` and the current content is truthy (a non-empty string),
send the current content once; otherwise send nothing. Returns the payloads
written to the channel. -/
def onDataChannelOpen (label : String) (currentContent : String) : List String :=
  if label = "textSync" ∧ currentContent ≠ "" then [currentContent] else []

/-- A data-channel lifecycle event seen by one link: a document content
change, or the channel transitioning to open. -/
inductive ChEvent where
  | change (s : String)
  | opened
deriving DecidableEq, Repr

/-- A channel's history: content changes keep `currentContentRef` up to date;
an open transition fires `onDataChannelOpen`. Returns the final content and
the payloads sent over the channel, in order. -/
def runChannel (label : String) : List ChEvent → String → String × List String
  | [], content => (content, [])
  | .change s :: rest, _ => runChannel label rest s
  | .opened :: rest, content =>
    let (cf, outs) := runChannel label rest content
    (cf, onDataChannelOpen label content ++ outs)

/-- The peer has a data channel in readyState `open`. -/
def peerOpen (p : Peer) : Bool :=
  match p.dataChannel with
  | some dc => dc.readyState = "open"
  | none => false

/-- The peer has an open data channel whose send throws. -/
def peerSendFails (p : Peer) : Bool :=
  match p.dataChannel with
  | some dc => dc.readyState = "open" ∧ dc.sendFails
  | none => false

/-- The iteration of `sendData` over a fixed entry list (the
`Object.entries(peers)` snapshot): attempts a send on every open channel; a
throwing send cleans that one link up and iteration continues. Returns the
final state and the ids attempted, in order. -/
def sendDataLoop (content : String) : List (String × Peer) → MgrState →
    MgrState × List String
  | [], st => (st, [])
  | (peerId, peer) :: rest, st =>
    match peer.dataChannel with
    | some dc =>
      if dc.readyState = "open" then
        let st' := if dc.sendFails then cleanupPeerConnection peerId st else st
        let (stf, attempts) := sendDataLoop content rest st'
        (stf, peerId :: attempts)
      else
        sendDataLoop content rest st
    | none => sendDataLoop content rest st

/-- `sendData(content)`: iterates the current `peers` entries. -/
def sendData (content : String) (st : MgrState) : MgrState × List String :=
  sendDataLoop content st.peers st

end RTC


/-! ### Association-map lemmas -/

namespace AssocMap

variable {κ α : Type} [DecidableEq κ]

theorem find?_eq_none_iff {k : κ} {l : List (κ × α)} :
    find? k l = none ↔ ∀ p ∈ l, p.1 ≠ k := by
  induction l with
  | nil => simp [find?]
  | cons p rest ih =>
    by_cases h : p.1 = k <;> simp [find?, h, ih]

theorem mem_of_find?_eq_some {k : κ} {v : α} {l : List (κ × α)} :
    find? k l = some v → (k, v) ∈ l := by
  induction l with
  | nil => intro h; simp [find?] at h
  | cons p rest ih =>
    intro h
    by_cases hp : p.1 = k
    · rw [find?, if_pos hp] at h
      injection h with h2
      have hpq : p = (k, v) := Prod.ext_iff.mpr ⟨hp, h2⟩
      rw [← hpq]
      exact List.mem_cons_self p rest
    · rw [find?, if_neg hp] at h
      exact List.mem_cons_of_mem _ (ih h)

omit [DecidableEq κ] in
theorem eq_of_mem_of_nodup_keys {l : List (κ × α)} (hnd : (keys l).Nodup)
    {p q : κ × α} (hp : p ∈ l) (hq : q ∈ l) (hk : p.1 = q.1) : p = q := by
  induction l with
  | nil => cases hp
  | cons x rest ih =>
    simp only [keys, List.map_cons, List.nodup_cons] at hnd
    rcases List.mem_cons.mp hp with hp1 | hp2 <;>
      rcases List.mem_cons.mp hq with hq1 | hq2
    · rw [hp1, hq1]
    · exfalso
      apply hnd.1
      have hm : q.1 ∈ List.map Prod.fst rest := List.mem_map_of_mem Prod.fst hq2
      rw [← hk, hp1] at hm
      exact hm
    · exfalso
      apply hnd.1
      have hm : p.1 ∈ List.map Prod.fst rest := List.mem_map_of_mem Prod.fst hp2
      rw [hk, hq1] at hm
      exact hm
    · exact ih hnd.2 hp2 hq2

theorem find?_eq_some_of_mem {l : List (κ × α)} (hnd : (keys l).Nodup)
    {k : κ} {v : α} (hm : (k, v) ∈ l) : find? k l = some v := by
  induction l with
  | nil => cases hm
  | cons p rest ih =>
    simp only [keys, List.map_cons, List.nodup_cons] at hnd
    rcases List.mem_cons.mp hm with h1 | h2
    · rw [← h1]
      simp [find?]
    · have hne : p.1 ≠ k := by
        intro he
        apply hnd.1
        have hmm : (k, v).1 ∈ List.map Prod.fst rest := List.mem_map_of_mem Prod.fst h2
        rw [← he] at hmm
        exact hmm
      rw [find?, if_neg hne]
      exact ih hnd.2 h2

theorem find?_filter_ne {k k' : κ} {l : List (κ × α)} (h : k' ≠ k) :
    find? k' (l.filter (fun p => p.1 ≠ k)) = find? k' l := by
  induction l with
  | nil => rfl
  | cons p rest ih =>
    rw [List.filter_cons]
    by_cases hp : p.1 = k
    · have hpk' : p.1 ≠ k' := by rw [hp]; exact fun he => h he.symm
      have hc : (decide ¬ (p.1 = k)) = false := by simp [hp]
      rw [hc]
      simp only [Bool.false_eq_true, if_false, ih, find?, if_neg hpk']
    · have hc : (decide ¬ (p.1 = k)) = true := by simp [hp]
      rw [hc]
      simp only [if_true, find?, ih]


theorem find?_set_self {k : κ} {v : α} {l : List (κ × α)} :
    find? k (set k v l) = some v := by
  simp [set, find?]

theorem find?_set_ne {k k' : κ} {v : α} {l : List (κ × α)} (h : k' ≠ k) :
    find? k' (set k v l) = find? k' l := by
  have hkk : k ≠ k' := fun he => h he.symm
  rw [set, find?]
  simp only [hkk, if_false]
  exact find?_filter_ne h

theorem find?_del_self {k : κ} {l : List (κ × α)} :
    find? k (del k l) = none := by
  rw [find?_eq_none_iff]
  intro p hp
  have := List.of_mem_filter hp
  simpa using this

theorem find?_del_ne {k k' : κ} {l : List (κ × α)} (h : k' ≠ k) :
    find? k' (del k l) = find? k' l :=
  find?_filter_ne h

omit [DecidableEq κ] in
theorem keys_nodup_filter {l : List (κ × α)} (hnd : (keys l).Nodup)
    (f : κ × α → Bool) : (keys (l.filter f)).Nodup := by
  induction l with
  | nil => simp [keys]
  | cons p rest ih =>
    simp only [keys, List.map_cons, List.nodup_cons] at hnd
    rw [List.filter_cons]
    by_cases h : f p
    · simp only [h, if_true, keys, List.map_cons, List.nodup_cons]
      refine ⟨?_, ih hnd.2⟩
      intro hmem
      rcases List.mem_map.mp hmem with ⟨q, hq, hqk⟩
      apply hnd.1
      rw [← hqk]
      exact List.mem_map_of_mem Prod.fst (List.mem_of_mem_filter hq)
    · simp only [h, if_false]
      exact ih hnd.2

theorem keys_nodup_set {k : κ} {v : α} {l : List (κ × α)} (hnd : (keys l).Nodup) :
    (keys (set k v l)).Nodup := by
  rw [set]
  show (keys ((k, v) :: l.filter (fun p => p.1 ≠ k))).Nodup
  simp only [keys, List.map_cons, List.nodup_cons]
  refine ⟨?_, keys_nodup_filter hnd _⟩
  intro hmem
  rcases List.mem_map.mp hmem with ⟨q, hq, hqk⟩
  have hne := List.of_mem_filter hq
  simp only [ne_eq, decide_not, Bool.not_eq_true', decide_eq_false_iff_not] at hne
  exact hne hqk

theorem keys_nodup_del {k : κ} {l : List (κ × α)} (hnd : (keys l).Nodup) :
    (keys (del k l)).Nodup :=
  keys_nodup_filter hnd _

theorem filter_key_eq_of_find? {l : List (κ × α)} (hnd : (keys l).Nodup)
    {k : κ} {v : α} (hf : find? k l = some v) :
    l.filter (fun p => p.1 = k) = [(k, v)] := by
  induction l with
  | nil => simp [find?] at hf
  | cons p rest ih =>
    simp only [keys, List.map_cons, List.nodup_cons] at hnd
    rw [List.filter_cons]
    by_cases h : p.1 = k
    · rw [find?, if_pos h] at hf
      injection hf with h2
      have hpq : p = (k, v) := Prod.ext_iff.mpr ⟨h, h2⟩
      have hrest : rest.filter (fun (p : κ × α) => decide (p.1 = k)) = [] := by
        rw [List.filter_eq_nil_iff]
        intro q hq
        simp only [decide_eq_true_eq]
        intro hqk
        apply hnd.1
        rw [h, ← hqk]
        exact List.mem_map_of_mem Prod.fst hq
      have hc : (decide (p.1 = k)) = true := by simp [h]
      rw [hc]
      simp only [if_true, hrest, hpq]

    · rw [find?, if_neg h] at hf
      have hc : (decide (p.1 = k)) = false := by simp [h]
      rw [hc]
      simp only [Bool.false_eq_true, if_false]
      exact ih hnd.2 hf

theorem find?_eq_none_of_not_mem_keys {k : κ} {l : List (κ × α)}
    (h : k ∉ keys l) : find? k l = none := by
  rw [find?_eq_none_iff]
  intro p hp he
  apply h
  rw [← he]
  exact List.mem_map_of_mem Prod.fst hp

end AssocMap

/-! ### Generic list helpers -/

theorem find?_eq_of_filter_singleton {α : Type} {f : α → Bool} {l : List α} {x : α}
    (h : l.filter f = [x]) : l.find? f = some x := by
  induction l with
  | nil => simp at h
  | cons p rest ih =>
    rw [List.filter_cons] at h
    by_cases hp : f p
    · rw [if_pos hp] at h
      injection h with h1 h2
      rw [List.find?_cons_of_pos _ hp, h1]
    · rw [if_neg hp] at h
      have : f p = false := Bool.eq_false_iff.mpr hp
      rw [List.find?_cons_of_neg _ hp]
      exact ih h

/-! ### Hub registry lemmas -/

namespace Hub

theorem strContains_eq_true_iff {l : List String} {s : String} :
    strContains l s = true ↔ s ∈ l := by
  induction l with
  | nil => simp [strContains]
  | cons v rest ih =>
    by_cases h : v = s
    · simp [strContains, h]
    · have : s ≠ v := fun he => h he.symm
      simp [strContains, h, ih, this]

theorem strContains_nil (s : String) : strContains [] s = false := rfl

theorem mem_broadcast_iff {reg : Registry} {roomId : String} {excl : List String}
    {c : Nat} {m : Message} :
    (c, m) ∈ broadcastClientsInRoom reg roomId excl ↔
      ∃ p ∈ reg, strContains excl p.2.Id = false ∧ p.2.RoomId = roomId
        ∧ c = p.2.Conn
        ∧ m = { type := "clients", clients := clientsInRoom reg roomId } := by
  rw [broadcastClientsInRoom]
  simp only [List.mem_filterMap]
  constructor
  · rintro ⟨p, hp, hf⟩
    by_cases hc : strContains excl p.2.Id ∨ p.2.RoomId ≠ roomId
    · rw [if_pos hc] at hf
      cases hf
    · rw [if_neg hc] at hf
      push_neg at hc
      injection hf with hf1
      obtain ⟨h1, h2⟩ := Prod.ext_iff.mp hf1
      exact ⟨p, hp, Bool.eq_false_iff.mpr hc.1, hc.2, h1.symm, h2.symm⟩
  · rintro ⟨p, hp, hni, hr, hc, hm⟩
    refine ⟨p, hp, ?_⟩
    have hcond : ¬ (strContains excl p.2.Id = true ∨ p.2.RoomId ≠ roomId) := by
      rintro (h1 | h2)
      · rw [hni] at h1
        cases h1
      · exact h2 hr
    rw [if_neg hcond, hc, hm]

theorem WF_set {reg : Registry} (hwf : WF reg) (cid rid : String) (conn : Nat) :
    WF (AssocMap.set cid ⟨cid, rid, conn⟩ reg) := by
  refine ⟨AssocMap.keys_nodup_set hwf.1, ?_⟩
  intro p hp
  rcases List.mem_cons.mp hp with h1 | h2
  · rw [h1]
  · exact hwf.2 p (List.mem_of_mem_filter h2)

theorem WF_del {reg : Registry} (hwf : WF reg) (k : String) :
    WF (AssocMap.del k reg) := by
  refine ⟨AssocMap.keys_nodup_del hwf.1, ?_⟩
  intro p hp
  exact hwf.2 p (List.mem_of_mem_filter hp)

theorem mem_clientsInRoom_iff {reg : Registry} {rid : String} {x : String} :
    x ∈ clientsInRoom reg rid ↔ ∃ p ∈ reg, p.2.RoomId = rid ∧ p.1 = x := by
  rw [clientsInRoom]
  simp only [List.mem_map, List.mem_filter, decide_eq_true_eq]
  constructor
  · rintro ⟨p, ⟨hp, hr⟩, hx⟩
    exact ⟨p, hp, hr, hx⟩
  · rintro ⟨p, hp, hr, hx⟩
    exact ⟨p, ⟨hp, hr⟩, hx⟩

theorem not_mem_clientsInRoom_del {reg : Registry} {rid : String} (i : String) :
    i ∉ clientsInRoom (AssocMap.del i reg) rid := by
  intro hmem
  rcases mem_clientsInRoom_iff.mp hmem with ⟨p, hp, _, hk⟩
  have := List.of_mem_filter hp
  simp only [ne_eq, decide_not, Bool.not_eq_true', decide_eq_false_iff_not] at this
  exact this hk

end Hub

/-! ### Claim theorems: Hub routing -/

namespace Hub

/-- Claim C1 (routing correctness): a connection that registered via
createRoom/joinRoom with clientId A has its loop state's senderID set to A
(second conjunct); and when such a connection sends an offer, answer or
candidate envelope addressed to a registered client B, the Hub performs
exactly one delivery — to B's connection, with senderId overwritten to A —
and delivers to no other client. -/
theorem routing_correct (cs : ConnState) (conn : Nat) (reg : Registry)
    (msg : Message) (A B : String) (tb : Client)
    (hsender : cs.senderID = A)
    (htype : msg.type = "offer" ∨ msg.type = "answer" ∨ msg.type = "candidate")
    (htarget : msg.clientId = B)
    (hB : AssocMap.find? B reg = some tb) :
    (handleMessage cs conn reg msg).2.2 = [(tb.Conn, { msg with senderId := A })]
    ∧ (∀ cs0 conn0 reg0 rid,
        (handleMessage cs0 conn0 reg0
          { type := "joinRoom", clientId := A, roomId := rid }).1 = ⟨A⟩) := by
  have h1 : ¬ (msg.type = "createRoom" ∨ msg.type = "joinRoom") := by
    rcases htype with h | h | h <;> rw [h] <;> decide
  have h2 : ¬ msg.type = "getClients" := by
    rcases htype with h | h | h <;> rw [h] <;> decide
  constructor
  · rw [handleMessage]
    simp only [if_neg h1, if_neg h2, if_pos htype]
    rw [forwardMessage, htarget, hB, hsender]
  · intro cs0 conn0 reg0 rid
    rw [handleMessage]
    simp

/-- Witness for C1 at a concrete registry: connection 3 registered as "A",
target "B" registered on connection 2; the spoofed senderId "EVIL" is
overwritten. -/
theorem routing_correct_witness :
    AssocMap.find? "B" [("B", Client.mk "B" "r" 2)] = some (Client.mk "B" "r" 2)
    ∧ (handleMessage ⟨"A"⟩ 3 [("B", Client.mk "B" "r" 2)]
        { type := "offer", clientId := "B", senderId := "EVIL", payload := "sdp" }).2.2
      = [(2, { type := "offer", clientId := "B", senderId := "A", payload := "sdp" })] :=
  ⟨by decide,
   (routing_correct ⟨"A"⟩ 3 [("B", Client.mk "B" "r" 2)]
      { type := "offer", clientId := "B", senderId := "EVIL", payload := "sdp" }
      "A" "B" (Client.mk "B" "r" 2) rfl (Or.inl rfl) rfl (by decide)).1⟩

/-- Claim C10 (implicit): a connection that never sent createRoom or joinRoom
still has the zero-value senderID "" (second conjunct: no other message type
changes the loop state), and an offer/answer/candidate it sends to a
registered target B is still forwarded — to B's connection, with senderId set
to the empty string. -/
theorem forward_without_registration (conn : Nat) (reg : Registry)
    (msg : Message) (B : String) (tb : Client)
    (htype : msg.type = "offer" ∨ msg.type = "answer" ∨ msg.type = "candidate")
    (htarget : msg.clientId = B)
    (hB : AssocMap.find? B reg = some tb) :
    (handleMessage ConnState.init conn reg msg).2.2
      = [(tb.Conn, { msg with senderId := "" })]
    ∧ (∀ cs0 conn0 reg0 m, ¬ m.type = "createRoom" → ¬ m.type = "joinRoom" →
        (handleMessage cs0 conn0 reg0 m).1 = cs0) := by
  have h1 : ¬ (msg.type = "createRoom" ∨ msg.type = "joinRoom") := by
    rcases htype with h | h | h <;> rw [h] <;> decide
  have h2 : ¬ msg.type = "getClients" := by
    rcases htype with h | h | h <;> rw [h] <;> decide
  constructor
  · rw [handleMessage]
    simp only [if_neg h1, if_neg h2, if_pos htype]
    rw [forwardMessage, htarget, hB]
    rfl
  · intro cs0 conn0 reg0 m hm1 hm2
    have hm : ¬ (m.type = "createRoom" ∨ m.type = "joinRoom") := by
      rintro (h | h)
      · exact hm1 h
      · exact hm2 h
    rw [handleMessage]
    simp only [if_neg hm]
    split
    · rfl
    · split <;> rfl

/-- Witness for C10: a fresh connection (state `ConnState.init`) forwards a
candidate to registered "B" with senderId stamped to the empty string. -/
theorem forward_without_registration_witness :
    AssocMap.find? "B" [("B", Client.mk "B" "r" 2)] = some (Client.mk "B" "r" 2)
    ∧ (handleMessage ConnState.init 3 [("B", Client.mk "B" "r" 2)]
        { type := "candidate", clientId := "B", senderId := "X", payload := "c" }).2.2
      = [(2, { type := "candidate", clientId := "B", senderId := "", payload := "c" })] :=
  ⟨by decide,
   (forward_without_registration 3 [("B", Client.mk "B" "r" 2)]
      { type := "candidate", clientId := "B", senderId := "X", payload := "c" }
      "B" (Client.mk "B" "r" 2) (Or.inr (Or.inr rfl)) rfl (by decide)).1⟩

/-- Claim C4, failing input (code bug): `handleClientDisconnection` on a
connection that never registered finds no record; the Go code then
dereferences the nil `*Client` (`client.RoomId`) and panics while holding the
registry mutex — modeled as `none`. Here connection 5 never registered while
"a" is registered on connection 1. -/
theorem disconnect_unregistered_is_nil_deref :
    handleClientDisconnection [("a", Client.mk "a" "r" 1)] 5 = none := by decide

end Hub

/-! ### Claim theorems: join broadcast and disconnect cleanup -/

namespace Hub

/-- Claim C5, counterexample: `handleRoomOperation` passes the joining client
in the exclusion list of the broadcast. Joining "A" to room "r" on an empty
registry leaves "A" as a member of the room but produces no delivery at all —
in particular none to the just-joined client, refuting "the just-joined
client included". -/
theorem join_broadcast_misses_joiner :
    (handleRoomOperation 1 "A" "r" []).2 = []
    ∧ clientsInRoom (handleRoomOperation 1 "A" "r" []).1 "r" = ["A"] := by decide

/-- Claim C5 as amended: join(roomId, clientId, conn) registers or replaces
the record for clientId (last writer wins per id, all other ids unchanged)
and broadcasts the new membership snapshot of the room to all members
currently in that room EXCEPT the just-joined client; nobody outside the room
or beyond these members receives anything. -/
theorem join_registers_and_broadcasts (conn : Nat) (cid rid : String)
    (reg : Registry) (hwf : WF reg) :
    AssocMap.find? cid (handleRoomOperation conn cid rid reg).1
        = some (Client.mk cid rid conn)
    ∧ (∀ k, k ≠ cid → AssocMap.find? k (handleRoomOperation conn cid rid reg).1
        = AssocMap.find? k reg)
    ∧ (∀ p ∈ (handleRoomOperation conn cid rid reg).1, p.2.RoomId = rid → p.1 ≠ cid →
        (p.2.Conn, Message.mk "clients" "" "" ""
            (clientsInRoom (handleRoomOperation conn cid rid reg).1 rid) "")
          ∈ (handleRoomOperation conn cid rid reg).2)
    ∧ (∀ d ∈ (handleRoomOperation conn cid rid reg).2,
        d.2 = Message.mk "clients" "" "" ""
            (clientsInRoom (handleRoomOperation conn cid rid reg).1 rid) ""
        ∧ ∃ p ∈ (handleRoomOperation conn cid rid reg).1,
            p.2.RoomId = rid ∧ p.1 ≠ cid ∧ d.1 = p.2.Conn) := by
  have hwf' : WF (AssocMap.set cid (Client.mk cid rid conn) reg) := WF_set hwf cid rid conn
  refine ⟨AssocMap.find?_set_self, ?_, ?_, ?_⟩
  · intro k hk
    exact AssocMap.find?_set_ne hk
  · intro p hp hroom hkey
    have hid : p.2.Id = p.1 := hwf'.2 p hp
    have hni : strContains [cid] p.2.Id = false := by
      rw [strContains]
      have : ¬ cid = p.2.Id := by
        rw [hid]
        exact fun he => hkey he.symm
      rw [if_neg this, strContains]
    exact mem_broadcast_iff.mpr ⟨p, hp, hni, hroom, rfl, rfl⟩
  · intro d hd
    obtain ⟨p, hp, hni, hroom, hc, hm⟩ :=
      mem_broadcast_iff.mp (show (d.1, d.2) ∈ _ from hd)
    have hid : p.2.Id = p.1 := hwf'.2 p hp
    have hkey : p.1 ≠ cid := by
      intro he
      rw [strContains, if_pos (by rw [hid, he])] at hni
      cases hni
    exact ⟨hm, p, hp, hroom, hkey, hc⟩

/-- Witness for C5 (amended): "B" joins room "r" where "A" (connection 1) is
already a member; "A" receives the snapshot ["B", "A"] and "B" receives
nothing. -/
theorem join_registers_and_broadcasts_witness :
    WF [("A", Client.mk "A" "r" 1)]
    ∧ (1, Message.mk "clients" "" "" ""
          (clientsInRoom (handleRoomOperation 2 "B" "r" [("A", Client.mk "A" "r" 1)]).1 "r") "")
        ∈ (handleRoomOperation 2 "B" "r" [("A", Client.mk "A" "r" 1)]).2 :=
  ⟨by constructor <;> decide,
   (join_registers_and_broadcasts 2 "B" "r" [("A", Client.mk "A" "r" 1)]
      ⟨by decide, by decide⟩).2.2.1
     ("A", Client.mk "A" "r" 1) (by decide) rfl (by decide)⟩

/-- Claim C3, counterexample: one connection (7) registered two clientIds
("a" then "b"). On disconnect, `getClientId` returns only the first matching
id, so only that record is deleted: the record ("b", …, Conn 7) — whose
transport handle is the very connection that dropped — survives in the
registry, refuting "contains no ClientRecord whose transport handle is c
(even if c had registered more than one clientId)". -/
theorem disconnect_leaves_second_record :
    handleClientDisconnection [("a", Client.mk "a" "r" 7), ("b", Client.mk "b" "r" 7)] 7
      = some ([("b", Client.mk "b" "r" 7)],
              [(7, Message.mk "clients" "" "" "" ["b"] "")]) := by decide

/-- Claim C3 as amended: when the dropped connection has exactly one
registered record, after `handleClientDisconnection` the registry holds no
record whose transport is that connection, and every remaining member of the
departed client's room is sent a clients snapshot that no longer contains the
departed id. -/
theorem cleanup_completeness_single (reg : Registry) (c : Nat) (i : String)
    (cl : Client) (hwf : WF reg)
    (huniq : reg.filter (fun p => p.2.Conn = c) = [(i, cl)]) :
    ∃ reg' ds, handleClientDisconnection reg c = some (reg', ds)
      ∧ (∀ p ∈ reg', ¬ p.2.Conn = c)
      ∧ (∀ p ∈ reg', p.2.RoomId = cl.RoomId →
          (p.2.Conn, Message.mk "clients" "" "" "" (clientsInRoom reg' cl.RoomId) "") ∈ ds)
      ∧ i ∉ clientsInRoom reg' cl.RoomId := by
  have hmem : (i, cl) ∈ reg := by
    have : (i, cl) ∈ reg.filter (fun p => p.2.Conn = c) := by
      rw [huniq]
      exact List.mem_singleton.mpr rfl
    exact List.mem_of_mem_filter this
  have hget : getClientId reg c = i := by
    rw [getClientId, find?_eq_of_filter_singleton huniq]
  have hfind : AssocMap.find? i reg = some cl :=
    AssocMap.find?_eq_some_of_mem hwf.1 hmem
  have hrun : handleClientDisconnection reg c
      = some (AssocMap.del i reg, broadcastClientsInRoom (AssocMap.del i reg) cl.RoomId []) := by
    rw [handleClientDisconnection, hget, hfind]
  refine ⟨AssocMap.del i reg, _, hrun, ?_, ?_, not_mem_clientsInRoom_del i⟩
  · intro p hp hpc
    have hpreg : p ∈ reg := List.mem_of_mem_filter hp
    have hpkey := List.of_mem_filter hp
    simp only [ne_eq, decide_not, Bool.not_eq_true', decide_eq_false_iff_not] at hpkey
    have : p ∈ reg.filter (fun p => p.2.Conn = c) :=
      List.mem_filter.mpr ⟨hpreg, by simp [hpc]⟩
    rw [huniq, List.mem_singleton] at this
    exact hpkey (by rw [this])
  · intro p hp hroom
    exact mem_broadcast_iff.mpr ⟨p, hp, strContains_nil p.2.Id, hroom, rfl, rfl⟩

/-- Witness for C3 (amended): connection 7 registered exactly "a"; "b" stays
(connection 9) and receives the snapshot ["b"], which excludes "a". -/
theorem cleanup_completeness_single_witness :
    (WF [("a", Client.mk "a" "r" 7), ("b", Client.mk "b" "r" 9)]
      ∧ [("a", Client.mk "a" "r" 7), ("b", Client.mk "b" "r" 9)].filter
          (fun p => p.2.Conn = 7) = [("a", Client.mk "a" "r" 7)])
    ∧ ∃ reg' ds,
        handleClientDisconnection [("a", Client.mk "a" "r" 7), ("b", Client.mk "b" "r" 9)] 7
          = some (reg', ds)
        ∧ (∀ p ∈ reg', ¬ p.2.Conn = 7)
        ∧ (∀ p ∈ reg', p.2.RoomId = (Client.mk "a" "r" 7).RoomId →
            (p.2.Conn, Message.mk "clients" "" "" ""
              (clientsInRoom reg' (Client.mk "a" "r" 7).RoomId) "") ∈ ds)
        ∧ "a" ∉ clientsInRoom reg' (Client.mk "a" "r" 7).RoomId :=
  ⟨⟨⟨by decide, by decide⟩, by decide⟩,
   cleanup_completeness_single [("a", Client.mk "a" "r" 7), ("b", Client.mk "b" "r" 9)]
     7 "a" (Client.mk "a" "r" 7) ⟨by decide, by decide⟩ (by decide)⟩

end Hub

/-! ### Claim theorems: Coordinator create idempotence and resync-on-open -/

namespace RTC

/-- Claim C2 (create idempotence): calling `createPeerConnection` twice in a
row for the same remote id leaves exactly one record for that id; the second
call returns the same peer-connection handle, changes nothing, and in
particular sends no duplicate offer. -/
theorem createPeerConnection_idempotent (st : MgrState) (r : String) (b : Bool)
    (hnd : (AssocMap.keys st.peers).Nodup) :
    (createPeerConnection r b (createPeerConnection r b st).2).2
        = (createPeerConnection r b st).2
    ∧ (createPeerConnection r b (createPeerConnection r b st).2).1
        = (createPeerConnection r b st).1
    ∧ (((createPeerConnection r b st).2).peers.filter (fun p => p.1 = r)).length = 1
    ∧ (createPeerConnection r b (createPeerConnection r b st).2).2.wsSent
        = (createPeerConnection r b st).2.wsSent := by
  cases hfind : AssocMap.find? r st.peers with
  | some p =>
    have hone : st.peers.filter (fun p => p.1 = r) = [(r, p)] :=
      AssocMap.filter_key_eq_of_find? hnd hfind
    simp only [createPeerConnection, hfind, hone, List.length_singleton]
    refine ⟨?_, ?_, ?_, ?_⟩ <;> trivial
  | none =>
    have hfind1 : AssocMap.find? r
        (AssocMap.set r (Peer.mk st.nextHandle
          (if b then some (Channel.mk "textSync" "connecting" false) else none)) st.peers)
        = some (Peer.mk st.nextHandle
          (if b then some (Channel.mk "textSync" "connecting" false) else none)) :=
      AssocMap.find?_set_self
    have hone : (AssocMap.set r (Peer.mk st.nextHandle
          (if b then some (Channel.mk "textSync" "connecting" false) else none))
          st.peers).filter (fun p => p.1 = r)
        = [(r, Peer.mk st.nextHandle
          (if b then some (Channel.mk "textSync" "connecting" false) else none))] :=
      AssocMap.filter_key_eq_of_find? (AssocMap.keys_nodup_set hnd) hfind1
    simp only [createPeerConnection, hfind, hfind1, hone, List.length_singleton]
    refine ⟨?_, ?_, ?_, ?_⟩ <;> trivial

/-- Witness for C2: creating the link to "B" twice from the empty manager
state yields one record, the same handle, and one offer in total. -/
theorem createPeerConnection_idempotent_witness :
    (AssocMap.keys (MgrState.mk [] 0 []).peers).Nodup
    ∧ ((createPeerConnection "B" true
          (createPeerConnection "B" true (MgrState.mk [] 0 [])).2).2
        = (createPeerConnection "B" true (MgrState.mk [] 0 [])).2
      ∧ (createPeerConnection "B" true
          (createPeerConnection "B" true (MgrState.mk [] 0 [])).2).1
        = (createPeerConnection "B" true (MgrState.mk [] 0 [])).1
      ∧ (((createPeerConnection "B" true (MgrState.mk [] 0 [])).2).peers.filter
          (fun p => p.1 = "B")).length = 1
      ∧ (createPeerConnection "B" true
          (createPeerConnection "B" true (MgrState.mk [] 0 [])).2).2.wsSent
        = (createPeerConnection "B" true (MgrState.mk [] 0 [])).2.wsSent) :=
  ⟨by decide, createPeerConnection_idempotent (MgrState.mk [] 0 []) "B" true (by decide)⟩

/-- Claim C8, counterexample: a `textSync` channel opens while the local
document content is the empty string; the handler's truthiness guard
(`currentContentRef.current`) is false, so nothing is sent on the channel —
not "exactly once". -/
theorem textSync_open_empty_content_sends_nothing :
    (runChannel "textSync" [ChEvent.opened] "").2 = []
    ∧ ¬ ((runChannel "textSync" [ChEvent.opened] "").2.length = 1) := by decide

/-- Claim C8 as amended: whenever a `textSync` data channel transitions to
open and the locally-held current content is non-empty, the handler sends
exactly that content exactly once over the channel, regardless of how many
times the content changed before the channel opened; when the current content
is the empty string the truthiness guard suppresses the send and nothing is
sent. -/
theorem resync_on_open (changes : List String) (c0 : String)
    (h : ¬ changes.getLastD c0 = "") :
    (runChannel "textSync" (changes.map ChEvent.change ++ [ChEvent.opened]) c0).2
      = [changes.getLastD c0] := by
  induction changes generalizing c0 with
  | nil =>
    simp only [List.map_nil, List.nil_append, List.getLastD_nil] at h ⊢
    simp [runChannel, onDataChannelOpen, h]
  | cons s rest ih =>
    simp only [List.map_cons, List.cons_append, runChannel, List.getLastD_cons] at h ⊢
    exact ih s h

/-- Witness for C8 (amended): the content changes from "" to "v1" to "v2"
before the channel opens; exactly one message, "v2", is sent. -/
theorem resync_on_open_witness :
    ¬ (["v1", "v2"].getLastD "" = "")
    ∧ (runChannel "textSync"
        (["v1", "v2"].map ChEvent.change ++ [ChEvent.opened]) "").2
      = [["v1", "v2"].getLastD ""] :=
  ⟨by decide, resync_on_open ["v1", "v2"] "" (by decide)⟩

end RTC

/-! ### Coordinator send-loop lemmas and claim C9 -/

namespace RTC

theorem cleanupPeerConnection_peers (peerId : String) (st : MgrState) :
    (cleanupPeerConnection peerId st).peers = AssocMap.del peerId st.peers
    ∧ (cleanupPeerConnection peerId st).nextHandle = st.nextHandle
    ∧ (cleanupPeerConnection peerId st).wsSent = st.wsSent := by
  rw [cleanupPeerConnection]
  cases hf : AssocMap.find? peerId st.peers with
  | some p => exact ⟨rfl, rfl, rfl⟩
  | none =>
    refine ⟨?_, rfl, rfl⟩
    rw [AssocMap.del]
    symm
    rw [List.filter_eq_self]
    intro q hq
    have := AssocMap.find?_eq_none_iff.mp hf q hq
    simpa using this

theorem sendDataLoop_attempts (content : String) (entries : List (String × Peer))
    (st : MgrState) :
    (sendDataLoop content entries st).2
      = (entries.filter (fun p => peerOpen p.2)).map Prod.fst := by
  induction entries generalizing st with
  | nil => rfl
  | cons e rest ih =>
    obtain ⟨pid, peer⟩ := e
    cases hdc : peer.dataChannel with
    | none =>
      have hopen : peerOpen peer = false := by simp [peerOpen, hdc]
      simp [sendDataLoop, hdc, hopen, ih st]
    | some dc =>
      by_cases hrs : dc.readyState = "open"
      · have hopen : peerOpen peer = true := by simp [peerOpen, hdc, hrs]
        simp [sendDataLoop, hdc, hrs, hopen, ih]
      · have hopen : peerOpen peer = false := by simp [peerOpen, hdc, hrs]
        simp [sendDataLoop, hdc, hrs, hopen, ih st]

theorem sendDataLoop_find? (content : String) (entries : List (String × Peer))
    (st : MgrState) (k : String) :
    AssocMap.find? k (sendDataLoop content entries st).1.peers
      = if k ∈ (entries.filter (fun p => peerSendFails p.2)).map Prod.fst
        then none else AssocMap.find? k st.peers := by
  induction entries generalizing st with
  | nil => simp [sendDataLoop]
  | cons e rest ih =>
    obtain ⟨pid, peer⟩ := e
    cases hdc : peer.dataChannel with
    | none =>
      have hfail : peerSendFails peer = false := by simp [peerSendFails, hdc]
      have hfc : List.filter (fun p => peerSendFails p.2) ((pid, peer) :: rest)
          = List.filter (fun p => peerSendFails p.2) rest := by
        rw [List.filter_cons]
        simp [hfail]
      simp [sendDataLoop, hdc, hfail, ih st]
      rw [hfc]
    | some dc =>
      by_cases hrs : dc.readyState = "open"
      · by_cases hsf : dc.sendFails = true
        · have hfail : peerSendFails peer = true := by simp [peerSendFails, hdc, hrs, hsf]
          have hcl := (cleanupPeerConnection_peers pid st).1
          simp only [sendDataLoop, hdc, hrs, hsf, if_true, if_pos rfl, List.filter_cons,
            hfail, List.map_cons]
          rw [ih]
          by_cases hk : k ∈ (rest.filter (fun p => peerSendFails p.2)).map Prod.fst
          · rw [if_pos hk, if_pos (List.mem_cons_of_mem _ hk)]
          · rw [if_neg hk]
            by_cases hkp : k = pid
            · rw [if_pos (by rw [hkp]; exact List.mem_cons_self _ _), hcl, hkp]
              exact AssocMap.find?_del_self
            · rw [if_neg (by
                intro hmem
                rcases List.mem_cons.mp hmem with h | h
                · exact hkp h
                · exact hk h), hcl]
              exact AssocMap.find?_del_ne hkp
        · have hfail : peerSendFails peer = false := by simp [peerSendFails, hdc, hrs, hsf]
          have hsf' : dc.sendFails = false := Bool.eq_false_iff.mpr hsf
          have hfc : List.filter (fun p => peerSendFails p.2) ((pid, peer) :: rest)
              = List.filter (fun p => peerSendFails p.2) rest := by
            rw [List.filter_cons]
            simp [hfail]
          simp [sendDataLoop, hdc, hrs, hsf', hfail, ih st]
          rw [hfc]
      · have hfail : peerSendFails peer = false := by simp [peerSendFails, hdc, hrs]
        have hfc : List.filter (fun p => peerSendFails p.2) ((pid, peer) :: rest)
            = List.filter (fun p => peerSendFails p.2) rest := by
          rw [List.filter_cons]
          simp [hfail]
        simp [sendDataLoop, hdc, hrs, hfail, ih st]
        rw [hfc]

/-- Claim C9 (broadcast-send failure isolation): `sendData(content)` attempts
a write to every peer whose data channel is open — in entry order, with every
open link attempted regardless of failures on earlier links — and afterwards
the record of every peer whose open-channel send threw has been removed
(that link's teardown) while every other peer's record is unchanged. -/
theorem sendData_failure_isolation (content : String) (st : MgrState) :
    (sendData content st).2 = (st.peers.filter (fun p => peerOpen p.2)).map Prod.fst
    ∧ ∀ k, AssocMap.find? k (sendData content st).1.peers
        = if k ∈ (st.peers.filter (fun p => peerSendFails p.2)).map Prod.fst
          then none else AssocMap.find? k st.peers :=
  ⟨sendDataLoop_attempts content st.peers st,
   fun k => sendDataLoop_find? content st.peers st k⟩

end RTC

/-! ### Coordinator membership-diff lemmas and claim C6 -/

namespace RTC

theorem foldl_cleanup_find? (ids : List String) (st : MgrState) (k : String) :
    AssocMap.find? k (ids.foldl (fun s peerId => cleanupPeerConnection peerId s) st).peers
      = if k ∈ ids then none else AssocMap.find? k st.peers := by
  induction ids generalizing st with
  | nil => simp
  | cons i rest ih =>
    rw [List.foldl_cons, ih]
    by_cases hk : k ∈ rest
    · rw [if_pos hk, if_pos (List.mem_cons_of_mem _ hk)]
    · rw [if_neg hk, (cleanupPeerConnection_peers i st).1]
      by_cases hki : k = i
      · rw [if_pos (by rw [hki]; exact List.mem_cons_self _ _), hki]
        exact AssocMap.find?_del_self
      · rw [if_neg (by
          intro hmem
          rcases List.mem_cons.mp hmem with h | h
          · exact hki h
          · exact hk h)]
        exact AssocMap.find?_del_ne hki

theorem createNewPeers_find?_of_some (clientId : String) (S : List String)
    (st : MgrState) (rid : String) (v : Peer)
    (h : AssocMap.find? rid st.peers = some v) :
    AssocMap.find? rid (createNewPeers clientId S st).1.peers = some v := by
  induction S generalizing st with
  | nil => exact h
  | cons s rest ih =>
    rw [createNewPeers]
    by_cases hc : s ≠ clientId ∧ AssocMap.find? s st.peers = none
    · rw [if_pos hc]
      have hsr : s ≠ rid := by
        intro he
        rw [he, h] at hc
        cases hc.2
      have h' : AssocMap.find? rid
          (createPeerConnection s true st).2.peers = some v := by
        rw [createPeerConnection, hc.2]
        exact (AssocMap.find?_set_ne (fun he => hsr he.symm)).trans h
      have := ih (createPeerConnection s true st).2 h'
      simpa using this
    · rw [if_neg hc]
      exact ih st h

theorem createNewPeers_not_mem (clientId : String) (S : List String)
    (st : MgrState) (rid : String) (hmem : ¬ rid ∈ S)
    (h : AssocMap.find? rid st.peers = none) :
    AssocMap.find? rid (createNewPeers clientId S st).1.peers = none := by
  induction S generalizing st with
  | nil => exact h
  | cons s rest ih =>
    have hsr : s ≠ rid := fun he => hmem (he ▸ List.mem_cons_self s rest)
    have hrest : ¬ rid ∈ rest := fun hr => hmem (List.mem_cons_of_mem _ hr)
    rw [createNewPeers]
    by_cases hc : s ≠ clientId ∧ AssocMap.find? s st.peers = none
    · rw [if_pos hc]
      have h' : AssocMap.find? rid
          (createPeerConnection s true st).2.peers = none := by
        rw [createPeerConnection, hc.2]
        exact (AssocMap.find?_set_ne (fun he => hsr he.symm)).trans h
      have := ih (createPeerConnection s true st).2 hrest h'
      simpa using this
    · rw [if_neg hc]
      exact ih st hrest h

theorem createNewPeers_creates (clientId : String) (S : List String)
    (st : MgrState) (rid : String) (hmem : rid ∈ S) (hne : rid ≠ clientId)
    (h : AssocMap.find? rid st.peers = none) :
    (rid, true) ∈ (createNewPeers clientId S st).2
    ∧ (AssocMap.find? rid (createNewPeers clientId S st).1.peers).isSome := by
  induction S generalizing st with
  | nil => cases hmem
  | cons s rest ih =>
    rw [createNewPeers]
    by_cases hsr : s = rid
    · have hc : s ≠ clientId ∧ AssocMap.find? s st.peers = none := by
        rw [hsr]
        exact ⟨hne, h⟩
      rw [if_pos hc]
      have hset : AssocMap.find? rid
          (createPeerConnection s true st).2.peers
            = some (Peer.mk st.nextHandle (some (Channel.mk "textSync" "connecting" false))) := by
        rw [createPeerConnection, hc.2, hsr]
        simp [AssocMap.find?_set_self]
      have hfin := createNewPeers_find?_of_some clientId rest
        (createPeerConnection s true st).2 rid _ hset
      constructor
      · simp [hsr]
      · simp only []
        rw [hfin]
        rfl
    · have hrest : rid ∈ rest := by
        rcases List.mem_cons.mp hmem with h1 | h1
        · exact absurd h1.symm hsr
        · exact h1
      by_cases hc : s ≠ clientId ∧ AssocMap.find? s st.peers = none
      · rw [if_pos hc]
        have h' : AssocMap.find? rid
            (createPeerConnection s true st).2.peers = none := by
          rw [createPeerConnection, hc.2]
          exact (AssocMap.find?_set_ne (fun he => hsr he.symm)).trans h
        have := ih (createPeerConnection s true st).2 hrest h'
        constructor
        · exact List.mem_cons_of_mem _ (by simpa using this.1)
        · simpa using this.2
      · rw [if_neg hc]
        exact ih st hrest h

theorem find?_isSome_of_mem_keys {l : List (String × Peer)} {k : String}
    (h : k ∈ AssocMap.keys l) : (AssocMap.find? k l).isSome := by
  induction l with
  | nil => cases h
  | cons p rest ih =>
    rw [AssocMap.find?]
    by_cases hp : p.1 = k
    · rw [if_pos hp]
      rfl
    · rw [if_neg hp]
      rcases List.mem_cons.mp h with h1 | h1
    -- h : k ∈ keys (p :: rest) = p.1 :: keys rest
      · exact absurd h1.symm hp
      · exact ih h1

end RTC

namespace RTC

/-- Claim C6 (membership diff): on a received clients snapshot S, provided the
client's own id has no peer record (it never creates one for itself): every
currently-known peer absent from S is reported disconnected and its record
removed; every id of S that is neither the own id nor an already-known peer
gets a link created with self as initiator and has a record afterwards; and
every known peer also present in S keeps its record untouched. -/
theorem membership_diff (clientId : String) (S : List String) (st : MgrState)
    (hself : AssocMap.find? clientId st.peers = none) :
    (∀ pid ∈ AssocMap.keys st.peers, ¬ pid ∈ S →
        pid ∈ (handleClientsMessage clientId S st).2.1
        ∧ AssocMap.find? pid (handleClientsMessage clientId S st).1.peers = none)
    ∧ (∀ rid ∈ S, rid ≠ clientId → AssocMap.find? rid st.peers = none →
        (rid, true) ∈ (handleClientsMessage clientId S st).2.2
        ∧ (AssocMap.find? rid (handleClientsMessage clientId S st).1.peers).isSome)
    ∧ (∀ pid ∈ AssocMap.keys st.peers, pid ∈ S →
        AssocMap.find? pid (handleClientsMessage clientId S st).1.peers
          = AssocMap.find? pid st.peers) := by
  have hkeys : ∀ pid ∈ AssocMap.keys st.peers, pid ≠ clientId := by
    intro pid hpid he
    rcases List.mem_map.mp hpid with ⟨p, hp, hk⟩
    exact AssocMap.find?_eq_none_iff.mp hself p hp (by rw [hk, he])
  simp only [handleClientsMessage]
  refine ⟨?_, ?_, ?_⟩
  · intro pid hpid hnS
    have hD : pid ∈ (AssocMap.keys st.peers).filter
        (fun peerId => ¬ peerId ∈ S ∧ peerId ≠ clientId) := by
      rw [List.mem_filter]
      exact ⟨hpid, by simp [hnS, hkeys pid hpid]⟩
    refine ⟨hD, ?_⟩
    have h1 := foldl_cleanup_find?
      ((AssocMap.keys st.peers).filter (fun peerId => ¬ peerId ∈ S ∧ peerId ≠ clientId))
      st pid
    rw [if_pos hD] at h1
    exact createNewPeers_not_mem clientId S _ pid hnS h1
  · intro rid hrid hne hnone
    have h1 := foldl_cleanup_find?
      ((AssocMap.keys st.peers).filter (fun peerId => ¬ peerId ∈ S ∧ peerId ≠ clientId))
      st rid
    have hnone1 : AssocMap.find? rid
        (((AssocMap.keys st.peers).filter
          (fun peerId => ¬ peerId ∈ S ∧ peerId ≠ clientId)).foldl
            (fun s peerId => cleanupPeerConnection peerId s) st).peers = none := by
      rw [h1]
      by_cases hD : rid ∈ (AssocMap.keys st.peers).filter
          (fun peerId => ¬ peerId ∈ S ∧ peerId ≠ clientId)
      · rw [if_pos hD]
      · rw [if_neg hD]
        exact hnone
    exact createNewPeers_creates clientId S _ rid hrid hne hnone1
  · intro pid hpid hS
    have hD : ¬ pid ∈ (AssocMap.keys st.peers).filter
        (fun peerId => ¬ peerId ∈ S ∧ peerId ≠ clientId) := by
      rw [List.mem_filter]
      rintro ⟨_, hdec⟩
      simp only [decide_eq_true_eq] at hdec
      exact hdec.1 hS
    have h1 := foldl_cleanup_find?
      ((AssocMap.keys st.peers).filter (fun peerId => ¬ peerId ∈ S ∧ peerId ≠ clientId))
      st pid
    rw [if_neg hD] at h1
    have hsome := find?_isSome_of_mem_keys hpid
    rcases Option.isSome_iff_exists.mp hsome with ⟨v, hv⟩
    have h2 : AssocMap.find? pid
        (((AssocMap.keys st.peers).filter
          (fun peerId => ¬ peerId ∈ S ∧ peerId ≠ clientId)).foldl
            (fun s peerId => cleanupPeerConnection peerId s) st).peers = some v := by
      rw [h1, hv]
    rw [createNewPeers_find?_of_some clientId S _ pid v h2, hv]

end RTC

namespace RTC

/-- Witness for C6: known peers "p1","p2" (own id "me"); snapshot
["me","p2","p3"]. "p1" is cleaned up and its record removed; "p3" is created
as initiator and has a record; "p2" is untouched. -/
theorem membership_diff_witness :
    AssocMap.find? "me" (MgrState.mk [("p1", Peer.mk 0 none), ("p2", Peer.mk 1 none)] 2 []).peers
      = none
    ∧ ("p1" ∈ (handleClientsMessage "me" ["me", "p2", "p3"]
          (MgrState.mk [("p1", Peer.mk 0 none), ("p2", Peer.mk 1 none)] 2 [])).2.1
      ∧ AssocMap.find? "p1" (handleClientsMessage "me" ["me", "p2", "p3"]
          (MgrState.mk [("p1", Peer.mk 0 none), ("p2", Peer.mk 1 none)] 2 [])).1.peers = none)
    ∧ (("p3", true) ∈ (handleClientsMessage "me" ["me", "p2", "p3"]
          (MgrState.mk [("p1", Peer.mk 0 none), ("p2", Peer.mk 1 none)] 2 [])).2.2
      ∧ (AssocMap.find? "p3" (handleClientsMessage "me" ["me", "p2", "p3"]
          (MgrState.mk [("p1", Peer.mk 0 none), ("p2", Peer.mk 1 none)] 2 [])).1.peers).isSome)
    ∧ AssocMap.find? "p2" (handleClientsMessage "me" ["me", "p2", "p3"]
          (MgrState.mk [("p1", Peer.mk 0 none), ("p2", Peer.mk 1 none)] 2 [])).1.peers
        = AssocMap.find? "p2"
            (MgrState.mk [("p1", Peer.mk 0 none), ("p2", Peer.mk 1 none)] 2 []).peers :=
  ⟨by decide,
   (membership_diff "me" ["me", "p2", "p3"]
      (MgrState.mk [("p1", Peer.mk 0 none), ("p2", Peer.mk 1 none)] 2 [])
      (by decide)).1 "p1" (by decide) (by decide),
   (membership_diff "me" ["me", "p2", "p3"]
      (MgrState.mk [("p1", Peer.mk 0 none), ("p2", Peer.mk 1 none)] 2 [])
      (by decide)).2.1 "p3" (by decide) (by decide) (by decide),
   (membership_diff "me" ["me", "p2", "p3"]
      (MgrState.mk [("p1", Peer.mk 0 none), ("p2", Peer.mk 1 none)] 2 [])
      (by decide)).2.2 "p2" (by decide) (by decide)⟩

end RTC

/-! ### Hub trace lemmas and claim C7 -/

namespace Hub

theorem applyDeliveries_cons (d : Nat × Message) (rest : List (Nat × Message))
    (snap : List (Nat × List String)) :
    applyDeliveries (d :: rest) snap
      = applyDeliveries rest
          (if d.2.type = "clients" then AssocMap.set d.1 d.2.clients snap else snap) := rfl

theorem find?_applyDeliveries_of_not_target (ds : List (Nat × Message))
    (snap : List (Nat × List String)) (c : Nat) (h : ∀ d ∈ ds, d.1 ≠ c) :
    AssocMap.find? c (applyDeliveries ds snap) = AssocMap.find? c snap := by
  induction ds generalizing snap with
  | nil => rfl
  | cons d rest ih =>
    rw [applyDeliveries_cons]
    have hd : d.1 ≠ c := h d (List.mem_cons_self d rest)
    rw [ih _ (fun d' hd' => h d' (List.mem_cons_of_mem _ hd'))]
    by_cases ht : d.2.type = "clients"
    · rw [if_pos ht]
      exact AssocMap.find?_set_ne (fun he => hd he.symm)
    · rw [if_neg ht]

theorem find?_applyDeliveries_of_target (ds : List (Nat × Message))
    (snap : List (Nat × List String)) (c : Nat) (m : Message)
    (hall : ∀ d ∈ ds, d.2 = m) (htype : m.type = "clients")
    (hc : ∃ d ∈ ds, d.1 = c) :
    AssocMap.find? c (applyDeliveries ds snap) = some m.clients := by
  induction ds generalizing snap with
  | nil =>
    rcases hc with ⟨d, hd, _⟩
    cases hd
  | cons d rest ih =>
    rw [applyDeliveries_cons]
    have hdm : d.2 = m := hall d (List.mem_cons_self d rest)
    have hall' : ∀ d' ∈ rest, d'.2 = m := fun d' hd' => hall d' (List.mem_cons_of_mem _ hd')
    by_cases hrest : ∃ d' ∈ rest, d'.1 = c
    · exact ih _ hall' hrest
    · have hdc : d.1 = c := by
        rcases hc with ⟨d', hd', he⟩
        rcases List.mem_cons.mp hd' with h1 | h1
        · rw [← h1]
          exact he
        · exact absurd ⟨d', h1, he⟩ hrest
      have hnot : ∀ d' ∈ rest, d'.1 ≠ c := by
        intro d' hd' he
        exact hrest ⟨d', hd', he⟩
      rw [find?_applyDeliveries_of_not_target rest _ c hnot]
      rw [if_pos (by rw [hdm]; exact htype), hdc, hdm]
      exact AssocMap.find?_set_self

theorem runFrom_append (l1 l2 : List Event) (w : World) :
    runFrom w (l1 ++ l2) = match runFrom w l1 with
      | some w1 => runFrom w1 l2
      | none => none := by
  induction l1 generalizing w with
  | nil => rfl
  | cons e rest ih =>
    rw [List.cons_append, runFrom, runFrom]
    cases step w e with
    | none => rfl
    | some w1 => exact ih w1

theorem handleClientDisconnection_some {reg : Registry} {conn : Nat}
    {x : Registry × List (Nat × Message)}
    (h : handleClientDisconnection reg conn = some x) :
    ∃ i client, AssocMap.find? i reg = some client
      ∧ x = (AssocMap.del i reg,
             broadcastClientsInRoom (AssocMap.del i reg) client.RoomId []) := by
  rw [handleClientDisconnection] at h
  cases hf : AssocMap.find? (getClientId reg conn) reg with
  | none => rw [hf] at h; cases h
  | some client =>
    rw [hf] at h
    injection h with h1
    exact ⟨getClientId reg conn, client, hf, h1.symm⟩

theorem runFrom_inv (events : List Event) (r : String) (w w' : World)
    (hro : ∀ e ∈ events, e.inRoom r)
    (hrun : runFrom w events = some w')
    (hw : WF w.reg ∧ ∀ p ∈ w.reg, p.2.RoomId = r) :
    WF w'.reg ∧ ∀ p ∈ w'.reg, p.2.RoomId = r := by
  induction events generalizing w with
  | nil =>
    rw [runFrom] at hrun
    injection hrun with h1
    rw [← h1]
    exact hw
  | cons e rest ih =>
    rw [runFrom] at hrun
    cases hstep : step w e with
    | none => rw [hstep] at hrun; cases hrun
    | some w1 =>
      rw [hstep] at hrun
      have hro' : ∀ e' ∈ rest, e'.inRoom r := fun e' he' => hro e' (List.mem_cons_of_mem _ he')
      refine ih w1 hro' hrun ?_
      cases e with
      | join conn cid rid =>
        have hr : rid = r := hro (Event.join conn cid rid) (List.mem_cons_self _ _)
        rw [step] at hstep
        injection hstep with h1
        rw [← h1]
        refine ⟨WF_set hw.1 cid rid conn, ?_⟩
        intro p hp
        rcases List.mem_cons.mp hp with h2 | h2
        · rw [h2, hr]
        · exact hw.2 p (List.mem_of_mem_filter h2)
      | disconnect conn =>
        rw [step] at hstep
        cases hd : handleClientDisconnection w.reg conn with
        | none => rw [hd] at hstep; cases hstep
        | some x =>
          rw [hd] at hstep
          injection hstep with h1
          obtain ⟨i, client, hfind, hx⟩ := handleClientDisconnection_some hd
          rw [← h1, hx]
          refine ⟨WF_del hw.1 i, ?_⟩
          intro p hp
          exact hw.2 p (List.mem_of_mem_filter hp)

theorem step_last (w w' : World) (e : Event) (r : String)
    (hinv : WF w.reg ∧ ∀ p ∈ w.reg, p.2.RoomId = r)
    (hro : e.inRoom r)
    (hstep : step w e = some w') :
    ∀ p ∈ w'.reg, ¬ e.isJoinOf p.1 →
      AssocMap.find? p.2.Conn w'.lastSnap = some (clientsInRoom w'.reg r) := by
  intro p hp hnj
  cases e with
  | join conn cid rid =>
    have hr : rid = r := hro
    subst hr
    rw [step] at hstep
    injection hstep with h1
    have hreg : w'.reg = AssocMap.set cid (Client.mk cid rid conn) w.reg := by
      rw [← h1]
    have hsnap : w'.lastSnap = applyDeliveries
        (broadcastClientsInRoom (AssocMap.set cid (Client.mk cid rid conn) w.reg) rid [cid])
        w.lastSnap := by
      rw [← h1]
    have hwf' : WF w'.reg := by
      rw [hreg]
      exact WF_set hinv.1 cid rid conn
    have hne : p.1 ≠ cid := fun he => hnj he.symm
    have hroom : p.2.RoomId = rid := by
      rw [hreg] at hp
      rcases List.mem_cons.mp hp with h2 | h2
      · rw [h2]
      · exact hinv.2 p (List.mem_of_mem_filter h2)
    have hid : p.2.Id = p.1 := hwf'.2 p hp
    have hni : strContains [cid] p.2.Id = false := by
      rw [strContains]
      rw [if_neg (by rw [hid]; exact fun he => hne he.symm), strContains]
    have hmem : (p.2.Conn, Message.mk "clients" "" "" "" (clientsInRoom w'.reg rid) "")
        ∈ broadcastClientsInRoom w'.reg rid [cid] := by
      exact mem_broadcast_iff.mpr ⟨p, hp, hni, hroom, rfl, rfl⟩
    have hall : ∀ d ∈ broadcastClientsInRoom w'.reg rid [cid],
        d.2 = Message.mk "clients" "" "" "" (clientsInRoom w'.reg rid) "" := by
      intro d hd
      have : (d.1, d.2) ∈ broadcastClientsInRoom w'.reg rid [cid] := hd
      exact (mem_broadcast_iff.mp this).choose_spec.2.2.2.2
    rw [hsnap, ← hreg]
    exact find?_applyDeliveries_of_target _ _ _ _ hall rfl ⟨_, hmem, rfl⟩
  | disconnect conn =>
    rw [step] at hstep
    cases hd : handleClientDisconnection w.reg conn with
    | none => rw [hd] at hstep; cases hstep
    | some x =>
      rw [hd] at hstep
      injection hstep with h1
      obtain ⟨i, client, hfind, hx⟩ := handleClientDisconnection_some hd
      have hclient : client.RoomId = r :=
        hinv.2 (i, client) (AssocMap.mem_of_find?_eq_some hfind)
      have hreg : w'.reg = AssocMap.del i w.reg := by
        rw [← h1, hx]
      have hsnap : w'.lastSnap = applyDeliveries
          (broadcastClientsInRoom (AssocMap.del i w.reg) client.RoomId []) w.lastSnap := by
        rw [← h1, hx]
      have hroom : p.2.RoomId = r := by
        rw [hreg] at hp
        exact hinv.2 p (List.mem_of_mem_filter hp)
      have hmem : (p.2.Conn, Message.mk "clients" "" "" ""
          (clientsInRoom (AssocMap.del i w.reg) client.RoomId) "")
          ∈ broadcastClientsInRoom (AssocMap.del i w.reg) client.RoomId [] := by
        refine mem_broadcast_iff.mpr ⟨p, ?_, strContains_nil p.2.Id, ?_, rfl, rfl⟩
        · rw [← hreg]
          exact hp
        · rw [hroom, hclient]
      have hall : ∀ d ∈ broadcastClientsInRoom (AssocMap.del i w.reg) client.RoomId [],
          d.2 = Message.mk "clients" "" "" ""
            (clientsInRoom (AssocMap.del i w.reg) client.RoomId) "" := by
        intro d hd
        have : (d.1, d.2) ∈ broadcastClientsInRoom (AssocMap.del i w.reg) client.RoomId [] := hd
        exact (mem_broadcast_iff.mp this).choose_spec.2.2.2.2
      rw [hsnap]
      have := find?_applyDeliveries_of_target _ w.lastSnap p.2.Conn _ hall rfl ⟨_, hmem, rfl⟩
      rw [this, hreg, hclient]

end Hub

namespace Hub

/-- Claim C7, counterexample: after the quiescent trace "A joins room r, then
B joins room r", the registry holds both A and B; but A's last-received
snapshot is ["B", "A"], which contains A's own id (the claim requires the
registry minus the member itself, i.e. ["B"]), and B — also a remaining
member — has received no snapshot at all (its own join's broadcast excluded
it). -/
theorem snapshot_includes_self :
    run [Event.join 1 "A" "r", Event.join 2 "B" "r"]
      = some (World.mk [("B", Client.mk "B" "r" 2), ("A", Client.mk "A" "r" 1)]
          [(1, ["B", "A"])])
    ∧ "A" ∈ clientsInRoom [("B", Client.mk "B" "r" 2), ("A", Client.mk "A" "r" 1)] "r"
    ∧ AssocMap.find? 2 ([(1, ["B", "A"])] : List (Nat × List String)) = none := by
  decide

/-- Claim C7 as amended: for every single-room trace of join/disconnect
events processed to quiescence (each disconnect finding a registered record,
else the Hub panics — see C4), every member left in the registry whose own
join was not the final event has, as its last-received snapshot, exactly the
Hub's registry for that room INCLUDING the member's own id; the final joiner
itself is excluded from its own join's broadcast and may hold a stale or no
snapshot. -/
theorem snapshot_convergence (l1 : List Event) (e : Event) (r : String) (w : World)
    (hro : ∀ ev ∈ l1 ++ [e], ev.inRoom r)
    (hrun : run (l1 ++ [e]) = some w) :
    ∀ p ∈ w.reg, ¬ e.isJoinOf p.1 →
      AssocMap.find? p.2.Conn w.lastSnap = some (clientsInRoom w.reg r) := by
  intro p hp hnj
  rw [run, runFrom_append] at hrun
  cases h0 : runFrom ⟨[], []⟩ l1 with
  | none => rw [h0] at hrun; cases hrun
  | some w0 =>
    rw [h0] at hrun
    have hinv := runFrom_inv l1 r ⟨[], []⟩ w0
      (fun ev hev => hro ev (List.mem_append_left _ hev)) h0
      ⟨⟨List.nodup_nil, fun q hq => absurd hq (List.not_mem_nil q)⟩,
       fun q hq => absurd hq (List.not_mem_nil q)⟩
    have hrun2 : runFrom w0 [e] = some w := hrun
    rw [runFrom] at hrun2
    cases hstep : step w0 e with
    | none => rw [hstep] at hrun2; cases hrun2
    | some w1 =>
      rw [hstep] at hrun2
      have hrun3 : some w1 = some w := hrun2
      injection hrun3 with h1
      subst h1
      exact step_last w0 w1 e r hinv
        (hro e (List.mem_append_right _ (List.mem_singleton.mpr rfl))) hstep p hp hnj

/-- Witness for C7 (amended): trace "A joins, B joins, B's connection drops",
all in room r. The final event is not A's join, so A's last snapshot ["A"]
equals the registry of room r (which is exactly ["A"], A's own id included). -/
theorem snapshot_convergence_witness :
    run ([Event.join 1 "A" "r", Event.join 2 "B" "r"] ++ [Event.disconnect 2])
      = some (World.mk [("A", Client.mk "A" "r" 1)] [(1, ["A"])])
    ∧ AssocMap.find? 1 (World.mk [("A", Client.mk "A" "r" 1)] [(1, ["A"])]).lastSnap
        = some (clientsInRoom (World.mk [("A", Client.mk "A" "r" 1)] [(1, ["A"])]).reg "r") := by
  constructor
  · decide
  · exact snapshot_convergence [Event.join 1 "A" "r", Event.join 2 "B" "r"]
      (Event.disconnect 2) "r" (World.mk [("A", Client.mk "A" "r" 1)] [(1, ["A"])])
      (by intro ev hev; fin_cases hev <;> trivial)
      (by decide)
      ("A", Client.mk "A" "r" 1) (by decide) (by intro h; exact h)

end Hub
